import Mathlib

/-!
# DNS server (`server/dns.go`): wire-format engine

A shallow embedding of `server/dns.go`: the zone lookup (`findLocalRecord`),
the QNAME decoder (`parseDomain`), the QNAME encoder (`encodeDomain`), the
flag packer (`packFlags`), the response encoder (`buildResponse`), the
dispatcher (`handleRequest`) and the zone loader (`loadDNSRecords`).

Conventions of the embedding.
* A Go `[]byte` and a Go `string` are both a `List Nat` of octets (`Bytes`);
  every place where Go truncates an integer to a narrower type carries an
  explicit `% 256` or `% 65536`.
* The package-level variable `localDNSRecords` is an explicit argument.
* A Go run-time panic (slice bounds out of range) is the result `none`.
* The Go loop of `parseDomain` runs on fuel `len(data)`; `parseDomainLoop_fuel`
  shows that this fuel is never exhausted before the loop exits by itself.
* What the network and the file system deliver to `handleRequest` and
  `loadDNSRecords` (datagrams, failures, lines) is an argument, and what
  `handleRequest` does is the list of its actions in order.
-/

namespace DNSServer

/-- Octet strings: Go `[]byte` and Go `string`. -/
abbrev Bytes := List Nat

/-- The octets of an ASCII literal, to write Go string literals readably. -/
def ascii (s : String) : Bytes := s.toList.map Char.toNat

/-- The byte `'.'`. -/
def dot : Nat := 46

/-! ## Data model -/

/-- The Go type `DNSRecord` (`Name`, `Type`, `Value`, all strings); the field
`Type` is spelled `Typ`, `Type` being reserved. -/
structure DNSRecord where
  Name : Bytes
  Typ : Bytes
  Value : Bytes
  deriving DecidableEq, Repr

/-- The Go type `DNSFlag`, every field a `uint16`. -/
structure DNSFlag where
  QR : Nat
  OpCode : Nat
  AA : Nat
  TC : Nat
  RD : Nat
  RA : Nat
  Z : Nat
  ResponseCode : Nat
  deriving DecidableEq, Repr

def QRQuery : Nat := 0
def QRResponse : Nat := 1
def OpCodeQuery : Nat := 0
def OpCodeIQuery : Nat := 1
def OpCodeStatus : Nat := 2
def ResponseNoError : Nat := 0

/-! ## Zone lookup -/

/-- Go `findLocalRecord`: the body of the `range` loop returns in its first
iteration, and the parameter `domain` is never read. -/
def findLocalRecord (localDNSRecords : List DNSRecord) (_domain : Bytes) : Bytes :=
  match localDNSRecords with
  | [] => []
  | record :: _ => record.Value

/-- The lookup as the specification words it: the Value of the first record,
in table order, whose Name equals the queried domain, and the empty string
when there is none. -/
def lookupExactSpec (table : List DNSRecord) (domain : Bytes) : Bytes :=
  match table.find? (fun record => decide (record.Name = domain)) with
  | some record => record.Value
  | none => []

/-! ## QNAME decoding and encoding -/

/-- The `for i := start; i < len(data); { ... }` loop of `parseDomain`, with
the loop index `i` and the `strings.Builder` contents `domain` as state. -/
def parseDomainLoop (data : Bytes) : Nat → Nat → Bytes → Bytes
  | 0, _, domain => domain
  | fuel + 1, i, domain =>
    if i < data.length then
      let length := data.getD i 0
      if length = 0 then domain
      else if i + length ≥ data.length then domain
      else
        let segment := (data.drop (i + 1)).take length
        parseDomainLoop data fuel (i + (length + 1)) (domain ++ segment ++ [dot])
    else domain

/-- Go `parseDomain`: decode the labels from offset 12, then drop one trailing
`'.'`. -/
def parseDomain (data : Bytes) : Bytes :=
  let domainString := parseDomainLoop data data.length 12 []
  if domainString.length > 0 ∧ domainString.getLast? = some dot then
    domainString.dropLast
  else domainString

/-- Go `strings.Split(s, ".")`: the pieces of `s` between its dots; always at
least one piece, the empty string giving one empty piece. -/
def splitDots (s : Bytes) : List Bytes := s.splitOn dot

/-- Go `encodeDomain`: every segment of `strings.Split(domain, ".")` as a length
octet (`byte(len(segment))`) and its bytes, then the terminating zero. -/
def encodeDomain (domain : Bytes) : Bytes :=
  let segments := splitDots domain
  let encodedDomain :=
    segments.foldl (fun enc segment => enc ++ [segment.length % 256] ++ segment) []
  encodedDomain ++ [0]

/-! ## Flags and type/class -/

/-- Go `x << n` on `uint16`. -/
def shl16 (x n : Nat) : Nat := (x <<< n) % 65536

/-- Go `packFlags`: two `uint16` expressions, each truncated by `byte(...)`. -/
def packFlags (flags : DNSFlag) : Bytes :=
  [ (shl16 flags.QR 7 ||| shl16 flags.OpCode 3 ||| shl16 flags.AA 2 ||| shl16 flags.TC 1
      ||| flags.RD) % 256,
    (shl16 flags.RA 7 ||| shl16 flags.Z 4 ||| flags.ResponseCode) % 256 ]

/-- Go `binary.BigEndian.Uint16(b)`: `uint16(b[1]) | uint16(b[0])<<8`. -/
def bigEndianUint16 (b : Bytes) : Nat := (b.getD 1 0 ||| shl16 (b.getD 0 0) 8) % 65536

/-- Go `parseTypeAndClass`; the `nil` of the default case is the empty list. -/
def parseTypeAndClass (data : Bytes) : Bytes :=
  if bigEndianUint16 data = 0x0001 then [0x00, 0x01, 0x00, 0x01]
  else if bigEndianUint16 data = 0x0005 then [0x00, 0x05, 0x00, 0x01]
  else if bigEndianUint16 data = 0x001c then [0x00, 0x1c, 0x00, 0x01]
  else []

/-! ## Decimal conversion (Go standard library) -/

/-- Digit loop of the fast path of `strconv.Atoi`: `ch -= '0'` on a byte, a
syntax error (`none`) when the result exceeds 9. -/
def atoiFastLoop : Bytes → Nat → Option Nat
  | [], n => some n
  | ch :: rest, n =>
    let ch0 := (ch + 256 - 48) % 256
    if ch0 > 9 then none else atoiFastLoop rest (n * 10 + ch0)

/-- Digit loop of `strconv.ParseUint(s, 10, 64)`: `none` is a syntax error, a
range error yields the saturated value `2^64 - 1` at once. -/
def parseUintLoop : Bytes → Nat → Option Nat
  | [], n => some n
  | c :: rest, n =>
    if 48 ≤ c ∧ c ≤ 57 then
      if n ≥ (2 ^ 64 - 1) / 10 + 1 then some (2 ^ 64 - 1)
      else if n * 10 + (c - 48) > 2 ^ 64 - 1 then some (2 ^ 64 - 1)
      else parseUintLoop rest (n * 10 + (c - 48))
    else none

/-- Go `strconv.ParseInt(s, 10, 0)` with the error dropped: 0 on a syntax
error, the saturated bound on a range error. -/
def parseInt (s : Bytes) : Int :=
  match s with
  | [] => 0
  | c :: rest =>
    let neg := decide (c = 45)
    let digits := if c = 43 ∨ c = 45 then rest else s
    match digits with
    | [] => 0
    | _ :: _ =>
      match parseUintLoop digits 0 with
      | none => 0
      | some un =>
        if ¬ neg ∧ un ≥ 2 ^ 63 then 2 ^ 63 - 1
        else if neg ∧ un > 2 ^ 63 then -(2 ^ 63)
        else if neg then -(un : Int) else (un : Int)

/-- Go `strconv.Atoi` on a 64-bit platform with the error dropped, as in
`data, _ := strconv.Atoi(part)`: the fast path for 1 to 18 bytes, `ParseInt`
otherwise. -/
def atoi (s : Bytes) : Int :=
  if 0 < s.length ∧ s.length < 19 then
    match s with
    | [] => 0
    | c :: rest =>
      let digits := if c = 45 ∨ c = 43 then rest else s
      if digits.length < 1 then 0
      else
        match atoiFastLoop digits 0 with
        | none => 0
        | some n => if c = 45 then -(n : Int) else (n : Int)
  else parseInt s

/-- Go `byte(data)` for `data` of type `int`. -/
def intToByte (data : Int) : Nat := (data % 256).toNat

/-! ## Response encoding -/

/-- Go `copy(dst[lo:hi], src)`: overwrites `min(hi - lo, len(src))` bytes of
`dst` from offset `lo`. -/
def copyInto (dst : Bytes) (lo hi : Nat) (src : Bytes) : Bytes :=
  dst.take lo ++ src.take (min (hi - lo) src.length) ++ dst.drop (lo + min (hi - lo) src.length)

/-- Big-endian octets of a `uint16`, as written by `binary.BigEndian.PutUint16`
and by `binary.Write` of a `uint16`. -/
def uint16Bytes (v : Nat) : Bytes := [(v >>> 8) % 256, v % 256]

/-- Go `buildResponse`. The request is sliced as `request[:12]` and
`request[4:6]`, which panics on a slice shorter than that (`none`); the model
takes the capacity of the slice to be its length. The value returned by
`binary.BigEndian.AppendUint32(ttlBuf, 60)` is discarded in the source, so
`ttlBuf` stays the four zero bytes of `make([]byte, 4)`. -/
def buildResponse (request : Bytes) (domain : Bytes) (answer : Bytes) : Option Bytes :=
  if request.length < 12 then none
  else
    let answerLen := answer.length
    let headerLen := 12
    let header := copyInto (List.replicate headerLen 0) 0 headerLen (request.take headerLen)
    let flags := packFlags
      { QR := QRResponse, OpCode := OpCodeQuery, AA := 0, TC := 0, RD := 0, RA := 0, Z := 0,
        ResponseCode := ResponseNoError }
    let header := copyInto header 2 4 (flags.take 2)
    let header := copyInto header 6 8 (uint16Bytes (answerLen % 65536))
    let buffer : Bytes := []
    let buffer := buffer ++ header
    let buffer := buffer ++ encodeDomain domain
    let buffer := buffer ++ parseTypeAndClass ((request.take 6).drop 4)
    let buffer := buffer ++ encodeDomain domain
    let buffer := buffer ++ parseTypeAndClass ((request.take 6).drop 4)
    let ttlBuf := List.replicate 4 0
    let buffer := buffer ++ ttlBuf
    let parts := splitDots answer
    let buffer := buffer ++ uint16Bytes (parts.length % 65536)
    let buffer := parts.foldl
      (fun buf part => if part.length > 0 then buf ++ [intToByte (atoi part)] else buf) buffer
    some buffer

/-! ## Specification-side notions -/

/-- Labels joined by `'.'`: the textual domain name of a list of labels. -/
def joinDots (labels : List Bytes) : Bytes := List.intercalate [dot] labels

/-- The wire form of a list of labels, without the terminating zero octet: a
length octet before the bytes of each label. -/
def wireLabels (labels : List Bytes) : Bytes := labels.flatMap (fun l => l.length :: l)

/-- What the decoding loop accumulates: every label followed by a `'.'`. -/
def dottedLabels (labels : List Bytes) : Bytes := labels.flatMap (fun l => l ++ [dot])

/-! ## Layout of a response and field readers -/

/-- The bytes `data[lo:hi]`. -/
def slice (data : Bytes) (lo hi : Nat) : Bytes := (data.take hi).drop lo

/-- Offset of the answer record in a response: the 12-byte header, then the
question section made of the encoded name and the type/class bytes that
`buildResponse` writes. -/
def answerOffset (request domain : Bytes) : Nat :=
  12 + (encodeDomain domain).length + (parseTypeAndClass ((request.take 6).drop 4)).length

/-- Offset of the TYPE/CLASS bytes of the answer record: after its name. -/
def answerTypeOffset (request domain : Bytes) : Nat :=
  answerOffset request domain + (encodeDomain domain).length

/-- Offset of the TTL field of the answer record: after its name and its
type/class bytes. -/
def ttlOffset (request domain : Bytes) : Nat :=
  answerTypeOffset request domain + (parseTypeAndClass ((request.take 6).drop 4)).length

/-- Offset of the RDLENGTH field: after the four TTL bytes. -/
def rdlengthOffset (request domain : Bytes) : Nat := ttlOffset request domain + 4

/-- Offset of the RDATA: after the two RDLENGTH bytes. -/
def rdataOffset (request domain : Bytes) : Nat := rdlengthOffset request domain + 2

/-- The flag fields of the two flag bytes of a header, by the bit layout
QR, OpCode[4], AA, TC, RD, RA, Z[3], ResponseCode[4]. -/
def unpackFlags (b : Bytes) : DNSFlag :=
  { QR := b.getD 0 0 / 128 % 2, OpCode := b.getD 0 0 / 8 % 16, AA := b.getD 0 0 / 4 % 2,
    TC := b.getD 0 0 / 2 % 2, RD := b.getD 0 0 % 2, RA := b.getD 1 0 / 128 % 2,
    Z := b.getD 1 0 / 16 % 8, ResponseCode := b.getD 1 0 % 16 }

/-- The RDATA octets written by the final loop of `buildResponse`: one octet
for every non-empty part, in order. -/
def rdataOctets (parts : List Bytes) : Bytes :=
  (parts.filter (fun part => decide (part.length > 0))).map (fun part => intToByte (atoi part))

/-- Value of four bytes read as a big-endian 32-bit number. -/
def bigEndianUint32 (b : Bytes) : Nat :=
  ((b.getD 0 0 * 256 + b.getD 1 0) * 256 + b.getD 2 0) * 256 + b.getD 3 0

/-- Decimal text of a number, as bytes. -/
def decimal (n : Nat) : Bytes := (Nat.toDigits 10 n).map Char.toNat

/-- The dotted decimal string `a.b.c.d`. -/
def dottedQuad (a b c d : Nat) : Bytes := joinDots [decimal a, decimal b, decimal c, decimal d]

/-! ## Decoder with explicit bounds checks -/

/-- Outcome of a run of the decoding loop: a value, a Go index or slice bound
violation, or exhausted fuel. -/
inductive LoopResult where
  | value (domain : Bytes)
  | outOfRange
  | outOfFuel
  deriving DecidableEq, Repr

/-- The loop of `parseDomain` with the bounds checks of Go made explicit:
`data[i]` needs `i < len(data)` and `data[i+1 : i+1+length]` needs
`i+1+length <= len(data)`; a violated check is `outOfRange`, and fuel that
ends while the loop condition still holds is `outOfFuel`. -/
def parseDomainChecked (data : Bytes) : Nat → Nat → Bytes → LoopResult
  | 0, i, domain => if i < data.length then LoopResult.outOfFuel else LoopResult.value domain
  | fuel + 1, i, domain =>
    if i < data.length then
      match data[i]? with
      | none => LoopResult.outOfRange
      | some length =>
        if length = 0 then LoopResult.value domain
        else if i + length ≥ data.length then LoopResult.value domain
        else if i + 1 + length ≤ data.length then
          let segment := (data.drop (i + 1)).take length
          parseDomainChecked data fuel (i + (length + 1)) (domain ++ segment ++ [dot])
        else LoopResult.outOfRange
    else LoopResult.value domain

/-! ## Request handling -/

/-- A read of one datagram into a fresh zeroed buffer of `size` bytes
(`make([]byte, size)` then `Read`): the first `size` bytes of the datagram,
the rest of the buffer staying zero. -/
def readInto (size : Nat) (datagram : Bytes) : Bytes :=
  datagram.take size ++ List.replicate (size - datagram.length) 0

/-- One entry of `DNSForwarder` with what the network does when it is tried:
whether `net.Dial` and `forwarderConn.Write` succeed, the datagram that
`forwarderConn.Read` receives (`none` on error), and whether the following
`conn.WriteToUDP` to the client succeeds. -/
structure Forwarder where
  address : Bytes
  dialOk : Bool
  writeOk : Bool
  reply : Option Bytes
  clientWriteOk : Bool
  deriving DecidableEq, Repr

/-- The observable actions of `handleRequest`, in order. -/
inductive Event where
  | print
  | writeToClient (data : Bytes)
  | dial (forwarder : Bytes)
  | writeToForwarder (forwarder : Bytes) (data : Bytes)
  | readFromForwarder (forwarder : Bytes)
  deriving DecidableEq, Repr

/-- The `for _, forwarder := range DNSForwarder` loop of `handleRequest`;
`request` is `buffer[:n]`. The count returned by `forwarderConn.Read` is
discarded in the source and the whole `responseBuffer` is written back. -/
def forwardLoop (request : Bytes) : List Forwarder → List Event
  | [] => []
  | forwarder :: rest =>
    if ¬ forwarder.dialOk then
      [Event.dial forwarder.address, Event.print] ++ forwardLoop request rest
    else if ¬ forwarder.writeOk then
      [Event.dial forwarder.address, Event.writeToForwarder forwarder.address request,
        Event.print] ++ forwardLoop request rest
    else
      match forwarder.reply with
      | none =>
        [Event.dial forwarder.address, Event.writeToForwarder forwarder.address request,
          Event.readFromForwarder forwarder.address, Event.print] ++ forwardLoop request rest
      | some reply =>
        let responseBuffer := readInto 1024 reply
        if ¬ forwarder.clientWriteOk then
          [Event.dial forwarder.address, Event.writeToForwarder forwarder.address request,
            Event.readFromForwarder forwarder.address, Event.writeToClient responseBuffer,
            Event.print] ++ forwardLoop request rest
        else
          [Event.dial forwarder.address, Event.writeToForwarder forwarder.address request,
            Event.readFromForwarder forwarder.address, Event.writeToClient responseBuffer]

/-- Go `handleRequest` as a function from what the network delivers to the
actions taken. `received` is the datagram that `conn.ReadFromUDP` reads
(`none` on error), `clientWriteOk` tells whether the `WriteToUDP` of a local
answer succeeds; the package variables `localDNSRecords` and `DNSForwarder`
are arguments. The result `none` is a run-time panic. -/
def handleRequest (localDNSRecords : List DNSRecord) (DNSForwarder : List Forwarder)
    (received : Option Bytes) (clientWriteOk : Bool) : Option (List Event) :=
  match received with
  | none => some [Event.print]
  | some datagram =>
    let buffer := readInto 1024 datagram
    let n := min datagram.length 1024
    if n < 12 then some [Event.print]
    else
      let domain := parseDomain buffer
      let localAnswer := findLocalRecord localDNSRecords domain
      if localAnswer ≠ [] then
        match buildResponse (buffer.take n) domain localAnswer with
        | none => none
        | some response =>
          some (Event.writeToClient response :: (if clientWriteOk then [] else [Event.print]))
      else some (forwardLoop (buffer.take n) DNSForwarder)

/-! ## Zone loading -/

/-- Go `loadDNSRecords` after a successful `os.Open`, as a function of the
lines that the scanner yields; the result is the new value of
`localDNSRecords`. `strings.Fields` and `strings.TrimSpace` of the Go standard
library are the parameters `fields` and `trimSpace`. -/
def loadDNSRecords (fields : Bytes → List Bytes) (trimSpace : Bytes → Bytes)
    (localDNSRecords : List DNSRecord) (lines : List Bytes) : List DNSRecord :=
  lines.foldl
    (fun table line =>
      if List.isPrefixOf [59] line ∨ (trimSpace line).length = 0 then table
      else
        let parts := fields line
        if parts.length < 4 then table
        else
          let name := parts.getD 0 []
          let recordType := parts.getD 2 []
          let value := parts.getD 3 []
          table ++ [{ Name := name, Typ := recordType, Value := value }])
    localDNSRecords

/-- The ASCII white space of Go (`'\t'`, `'\n'`, `'\v'`, `'\f'`, `'\r'`, `' '`). -/
def isAsciiSpace (c : Nat) : Bool := c = 9 || c = 10 || c = 11 || c = 12 || c = 13 || c = 32

/-- Go `strings.Fields` on a string of ASCII bytes: the maximal runs of
non-space bytes. -/
def asciiFields (s : Bytes) : List Bytes :=
  (s.splitOnP isAsciiSpace).filter (fun field => decide (field ≠ []))

/-- Go `strings.TrimSpace` on a string of ASCII bytes. -/
def asciiTrimSpace (s : Bytes) : Bytes :=
  ((s.dropWhile isAsciiSpace).reverse.dropWhile isAsciiSpace).reverse

/-- The record that the specification assigns to one line of a zone file:
none for a line that begins with `';'`, is blank, or has fewer than four
fields; otherwise the record made of fields 0, 2 and 3. -/
def zoneRecordOfLine (fields : Bytes → List Bytes) (trimSpace : Bytes → Bytes)
    (line : Bytes) : Option DNSRecord :=
  if line.head? = some 59 then none
  else if trimSpace line = [] then none
  else if 4 ≤ (fields line).length then
    some { Name := (fields line).getD 0 [], Typ := (fields line).getD 2 [],
           Value := (fields line).getD 3 [] }
  else none

/-! ## Flag ranges -/

/-- Every field of the flags fits its declared width. -/
abbrev flagsInRange (f : DNSFlag) : Prop :=
  f.QR < 2 ∧ f.OpCode < 16 ∧ f.AA < 2 ∧ f.TC < 2 ∧ f.RD < 2 ∧ f.RA < 2 ∧ f.Z < 8
    ∧ f.ResponseCode < 16

/-- The 16-bit flags word as the specification lays it out. -/
def flagsWord (f : DNSFlag) : Nat :=
  f.QR * 2 ^ 15 + f.OpCode * 2 ^ 11 + f.AA * 2 ^ 10 + f.TC * 2 ^ 9 + f.RD * 2 ^ 8
    + f.RA * 2 ^ 7 + f.Z * 2 ^ 4 + f.ResponseCode

/-! ## Lemmas on the decoder and the encoder -/

theorem parseDomainLoop_fuel (data : Bytes) (fuel1 fuel2 i : Nat) (domain : Bytes)
    (h1 : data.length ≤ fuel1 + i) (h2 : data.length ≤ fuel2 + i) :
    parseDomainLoop data fuel1 i domain = parseDomainLoop data fuel2 i domain := by
  induction fuel1 generalizing fuel2 i domain with
  | zero =>
    cases fuel2 with
    | zero => rfl
    | succ f2 =>
      have hi : ¬ i < data.length := by omega
      simp [parseDomainLoop, hi]
  | succ f1 ih =>
    cases fuel2 with
    | zero =>
      have hi : ¬ i < data.length := by omega
      simp [parseDomainLoop, hi]
    | succ f2 =>
      simp only [parseDomainLoop]
      split
      · split
        · rfl
        · split
          · rfl
          · apply ih <;> omega
      · rfl

theorem encode_foldl (segments : List Bytes) (acc : Bytes) :
    segments.foldl (fun enc segment => enc ++ [segment.length % 256] ++ segment) acc
      = acc ++ segments.flatMap (fun l => (l.length % 256) :: l) := by
  induction segments generalizing acc with
  | nil => simp
  | cons s ss ih =>
    rw [List.foldl_cons, ih, List.flatMap_cons]
    simp

theorem wireLabels_mod (labels : List Bytes) (h : ∀ l ∈ labels, l.length < 256) :
    labels.flatMap (fun l => (l.length % 256) :: l) = wireLabels labels := by
  induction labels with
  | nil => rfl
  | cons l ls ih =>
    have hl : l.length % 256 = l.length := Nat.mod_eq_of_lt (h l (List.mem_cons_self _ _))
    have hls : ∀ l ∈ ls, l.length < 256 := fun x hx => h x (List.mem_cons_of_mem _ hx)
    simp [wireLabels, hl] at ih ⊢
    exact ih hls

theorem encodeDomain_joinDots (labels : List Bytes) (hne : labels ≠ [])
    (hdot : ∀ l ∈ labels, dot ∉ l) (hlen : ∀ l ∈ labels, l.length < 256) :
    encodeDomain (joinDots labels) = wireLabels labels ++ [0] := by
  unfold encodeDomain splitDots joinDots
  rw [List.splitOn_intercalate labels dot hdot hne]
  simp only [encode_foldl, List.nil_append]
  rw [wireLabels_mod labels hlen]

theorem dottedLabels_eq (labels : List Bytes) (hne : labels ≠ []) :
    dottedLabels labels = joinDots labels ++ [dot] := by
  induction labels with
  | nil => exact absurd rfl hne
  | cons l ls ih =>
    cases ls with
    | nil => simp [dottedLabels, joinDots, List.intercalate]
    | cons l2 ls2 =>
      have := ih (by simp)
      simp [dottedLabels, joinDots, List.intercalate] at this ⊢
      exact this

theorem getD_append_cons (pre rest : Bytes) (x d : Nat) :
    (pre ++ x :: rest).getD pre.length d = x := by
  rw [List.getD_append_right _ _ _ _ (Nat.le_refl _), Nat.sub_self, List.getD_cons_zero]

theorem parseDomainLoop_wire (labels : List Bytes) (hpos : ∀ l ∈ labels, 1 ≤ l.length)
    (pre t : Bytes) (fuel : Nat) (domain : Bytes)
    (hfuel : (pre ++ wireLabels labels ++ 0 :: t).length ≤ fuel + pre.length) :
    parseDomainLoop (pre ++ wireLabels labels ++ 0 :: t) fuel pre.length domain
      = domain ++ dottedLabels labels := by
  induction labels generalizing pre fuel domain with
  | nil =>
    cases fuel with
    | zero => simp at hfuel
    | succ f =>
      have hget : (pre ++ wireLabels [] ++ 0 :: t).getD pre.length 0 = 0 := by
        rw [List.append_assoc]; exact getD_append_cons _ _ _ _
      rw [parseDomainLoop]
      simp only [hget]
      simp [dottedLabels]
  | cons l ls ih =>
    cases fuel with
    | zero => simp at hfuel
    | succ f =>
      have hl : 1 ≤ l.length := hpos l (List.mem_cons_self _ _)
      have hls : ∀ x ∈ ls, 1 ≤ x.length := fun x hx => hpos x (List.mem_cons_of_mem _ hx)
      have hdata : pre ++ wireLabels (l :: ls) ++ 0 :: t
          = (pre ++ l.length :: l) ++ wireLabels ls ++ 0 :: t := by
        simp [wireLabels]
      have hget : (pre ++ wireLabels (l :: ls) ++ 0 :: t).getD pre.length 0 = l.length := by
        rw [List.append_assoc]
        simp only [wireLabels, List.flatMap_cons, List.cons_append]
        exact getD_append_cons _ _ _ _
      have hseg : ((pre ++ wireLabels (l :: ls) ++ 0 :: t).drop (pre.length + 1)).take l.length
          = l := by
        simp [wireLabels]
      have hlen : (pre ++ wireLabels (l :: ls) ++ 0 :: t).length
          = pre.length + (l.length + 1) + (wireLabels ls).length + (t.length + 1) := by
        simp [wireLabels]; omega
      rw [parseDomainLoop]
      simp only [hget, hseg]
      rw [if_pos (by omega), if_neg (by omega), if_neg (by omega)]
      have hi : pre.length + (l.length + 1) = (pre ++ l.length :: l).length := by simp
      rw [hdata, hi, ih hls]
      · simp [dottedLabels]
      · rw [← hdata, hlen]; simp; omega

theorem parseDomain_wire (labels : List Bytes) (hne : labels ≠ [])
    (hpos : ∀ l ∈ labels, 1 ≤ l.length) (h t : Bytes) (hh : h.length = 12) :
    parseDomain (h ++ wireLabels labels ++ 0 :: t) = joinDots labels := by
  unfold parseDomain
  have hloop := parseDomainLoop_wire labels hpos h t (h ++ wireLabels labels ++ 0 :: t).length []
    (by omega)
  rw [hh] at hloop
  simp only [hloop, List.nil_append, dottedLabels_eq labels hne]
  simp

/-! ## Lemmas on the response encoder -/

theorem rdata_foldl (parts : List Bytes) (buf : Bytes) :
    parts.foldl
        (fun buf part => if part.length > 0 then buf ++ [intToByte (atoi part)] else buf) buf
      = buf ++ rdataOctets parts := by
  induction parts generalizing buf with
  | nil => simp [rdataOctets]
  | cons p ps ih =>
    rw [List.foldl_cons, ih]
    by_cases hp : p.length > 0
    · simp [rdataOctets, hp, List.filter_cons]
    · simp [rdataOctets, hp, List.filter_cons]

theorem cons_of_length {n : Nat} (l : Bytes) (h : n + 1 ≤ l.length) :
    ∃ x xs, l = x :: xs ∧ n ≤ xs.length := by
  cases l with
  | nil => simp at h
  | cons x xs => exact ⟨x, xs, rfl, by simpa using h⟩

theorem header_shape (request : Bytes) (h : 12 ≤ request.length) :
    ∃ r0 r1 r2 r3 r4 r5 r6 r7 r8 r9 r10 r11 rest,
      request = r0 :: r1 :: r2 :: r3 :: r4 :: r5 :: r6 :: r7 :: r8 :: r9 :: r10 :: r11 :: rest := by
  obtain ⟨r0, l0, rfl, h0⟩ := cons_of_length request h
  obtain ⟨r1, l1, rfl, h1⟩ := cons_of_length l0 h0
  obtain ⟨r2, l2, rfl, h2⟩ := cons_of_length l1 h1
  obtain ⟨r3, l3, rfl, h3⟩ := cons_of_length l2 h2
  obtain ⟨r4, l4, rfl, h4⟩ := cons_of_length l3 h3
  obtain ⟨r5, l5, rfl, h5⟩ := cons_of_length l4 h4
  obtain ⟨r6, l6, rfl, h6⟩ := cons_of_length l5 h5
  obtain ⟨r7, l7, rfl, h7⟩ := cons_of_length l6 h6
  obtain ⟨r8, l8, rfl, h8⟩ := cons_of_length l7 h7
  obtain ⟨r9, l9, rfl, h9⟩ := cons_of_length l8 h8
  obtain ⟨r10, l10, rfl, h10⟩ := cons_of_length l9 h9
  obtain ⟨r11, l11, rfl, h11⟩ := cons_of_length l10 h10
  exact ⟨r0, r1, r2, r3, r4, r5, r6, r7, r8, r9, r10, r11, l11, rfl⟩

/-- The layout of a response, read off the sequence of writes of
`buildResponse` on a request whose twelve header bytes are named. -/
theorem buildResponse_layout (r0 r1 r2 r3 r4 r5 r6 r7 r8 r9 r10 r11 : Nat) (rest : Bytes)
    (domain answer : Bytes) :
    buildResponse (r0 :: r1 :: r2 :: r3 :: r4 :: r5 :: r6 :: r7 :: r8 :: r9 :: r10 :: r11 :: rest)
        domain answer
      = some ([r0, r1, 128, 0, r4, r5] ++ uint16Bytes (answer.length % 65536)
          ++ [r8, r9, r10, r11]
          ++ encodeDomain domain ++ parseTypeAndClass [r4, r5]
          ++ encodeDomain domain ++ parseTypeAndClass [r4, r5]
          ++ [0, 0, 0, 0]
          ++ uint16Bytes ((splitDots answer).length % 65536)
          ++ rdataOctets (splitDots answer)) := by
  unfold buildResponse
  rw [if_neg (by simp)]
  simp only [rdata_foldl]
  rfl

theorem bigEndianUint16_uint16Bytes (v : Nat) (hv : v < 65536) :
    bigEndianUint16 (uint16Bytes v) = v := by
  have hhi : (v >>> 8) % 256 = v / 256 := by
    rw [Nat.shiftRight_eq_div_pow]
    omega
  have hor : v % 256 ||| 2 ^ 8 * (v / 256) = 2 ^ 8 * (v / 256) + v % 256 := by
    rw [Nat.lor_comm]
    exact (Nat.mul_add_lt_is_or (Nat.mod_lt _ (by norm_num)) _).symm
  simp only [bigEndianUint16, uint16Bytes, shl16, List.getD_cons_succ, List.getD_cons_zero, hhi,
    Nat.shiftLeft_eq]
  have hm : v / 256 * 2 ^ 8 % 65536 = 2 ^ 8 * (v / 256) := by omega
  rw [hm, hor]
  omega

/-- The response as its sections, for any request of at least 12 bytes. -/
theorem buildResponse_sections (request domain answer : Bytes) (hlen : 12 ≤ request.length) :
    ∃ header : Bytes, header.length = 12 ∧
      buildResponse request domain answer
        = some (header ++ encodeDomain domain ++ parseTypeAndClass ((request.take 6).drop 4)
            ++ encodeDomain domain ++ parseTypeAndClass ((request.take 6).drop 4)
            ++ [0, 0, 0, 0]
            ++ uint16Bytes ((splitDots answer).length % 65536)
            ++ rdataOctets (splitDots answer)) := by
  obtain ⟨r0, r1, r2, r3, r4, r5, r6, r7, r8, r9, r10, r11, rest, rfl⟩ :=
    header_shape request hlen
  refine ⟨[r0, r1, 128, 0, r4, r5] ++ uint16Bytes (answer.length % 65536) ++ [r8, r9, r10, r11],
    by simp [uint16Bytes], ?_⟩
  rw [buildResponse_layout]
  rfl

set_option maxRecDepth 100000 in
theorem decimal_octet : ∀ x < 256,
    dot ∉ decimal x ∧ (decimal x).length > 0 ∧ intToByte (atoi (decimal x)) = x := by
  decide

/-- The response as the bytes before the TTL field, whose count is
`ttlOffset`, then the TTL bytes, the RDLENGTH bytes and the RDATA. -/
theorem buildResponse_tail (request domain answer : Bytes) (hlen : 12 ≤ request.length) :
    ∃ pre : Bytes, pre.length = ttlOffset request domain ∧
      buildResponse request domain answer
        = some (pre ++ [0, 0, 0, 0] ++ uint16Bytes ((splitDots answer).length % 65536)
            ++ rdataOctets (splitDots answer)) := by
  obtain ⟨header, hh, hresp⟩ := buildResponse_sections request domain answer hlen
  refine ⟨header ++ encodeDomain domain ++ parseTypeAndClass ((request.take 6).drop 4)
    ++ encodeDomain domain ++ parseTypeAndClass ((request.take 6).drop 4), ?_, hresp⟩
  simp only [ttlOffset, answerTypeOffset, answerOffset, List.length_append, hh]

theorem slice_tail (pre mid post : Bytes) (lo hi : Nat) (hlo : lo = pre.length)
    (hhi : hi = lo + mid.length) : slice (pre ++ mid ++ post) lo hi = mid := by
  subst hlo hhi
  simp [slice, List.take_append]

theorem splitDots_dottedQuad (a b c d : Nat) (ha : a < 256) (hb : b < 256) (hc : c < 256)
    (hd : d < 256) :
    splitDots (dottedQuad a b c d) = [decimal a, decimal b, decimal c, decimal d] := by
  unfold splitDots dottedQuad joinDots
  apply List.splitOn_intercalate
  · intro l hl
    simp only [List.mem_cons, List.mem_singleton, List.not_mem_nil, or_false] at hl
    rcases hl with rfl | rfl | rfl | rfl
    · exact (decimal_octet a ha).1
    · exact (decimal_octet b hb).1
    · exact (decimal_octet c hc).1
    · exact (decimal_octet d hd).1
  · simp

theorem rdataOctets_dottedQuad (a b c d : Nat) (ha : a < 256) (hb : b < 256) (hc : c < 256)
    (hd : d < 256) :
    rdataOctets [decimal a, decimal b, decimal c, decimal d] = [a, b, c, d] := by
  simp [rdataOctets, List.filter_cons, (decimal_octet a ha).2.1, (decimal_octet b hb).2.1,
    (decimal_octet c hc).2.1, (decimal_octet d hd).2.1, (decimal_octet a ha).2.2,
    (decimal_octet b hb).2.2, (decimal_octet c hc).2.2, (decimal_octet d hd).2.2]

/-- What `buildResponse` writes from RDLENGTH on, for any Value: the number of
dot-separated parts as a 16-bit number, then one octet for every non-empty
part. -/
theorem buildResponse_rdlength_general (request domain answer : Bytes)
    (hlen : 12 ≤ request.length) :
    ∃ response, buildResponse request domain answer = some response
      ∧ bigEndianUint16
          (slice response (rdlengthOffset request domain) (rdataOffset request domain))
          = (splitDots answer).length % 65536
      ∧ response.drop (rdataOffset request domain)
          = ((splitDots answer).filter (fun part => decide (part.length > 0))).map
              (fun part => intToByte (atoi part))
      ∧ response.length = rdataOffset request domain
          + ((splitDots answer).filter (fun part => decide (part.length > 0))).length := by
  obtain ⟨pre, hpre, hresp⟩ := buildResponse_tail request domain answer hlen
  refine ⟨_, hresp, ?_, ?_, ?_⟩
  · rw [slice_tail (pre ++ [0, 0, 0, 0]) _ _ _ _ (by simp [rdlengthOffset, hpre])
      (by simp [rdataOffset, uint16Bytes])]
    exact bigEndianUint16_uint16Bytes _ (Nat.mod_lt _ (by norm_num))
  · exact List.drop_left' (by simp [rdataOffset, rdlengthOffset, hpre, uint16Bytes])
  · simp only [rdataOctets, List.length_append, List.length_map, hpre, rdataOffset,
      rdlengthOffset, uint16Bytes, List.length_cons, List.length_nil]

/-! ## Lemmas on totality and truncated names -/

theorem parseDomainChecked_eq (data : Bytes) (fuel i : Nat) (domain : Bytes)
    (hfuel : data.length ≤ fuel + i) :
    parseDomainChecked data fuel i domain
      = LoopResult.value (parseDomainLoop data fuel i domain) := by
  induction fuel generalizing i domain with
  | zero =>
    have hi : ¬ i < data.length := by omega
    simp [parseDomainChecked, parseDomainLoop, hi]
  | succ f ih =>
    rw [parseDomainChecked, parseDomainLoop]
    by_cases hi : i < data.length
    · have hidx : data[i]? = some (data.getD i 0) := by
        simp [List.getD_eq_getElem?_getD, List.getElem?_eq_getElem hi]
      rw [if_pos hi, if_pos hi, hidx]
      simp only
      by_cases h0 : data.getD i 0 = 0
      · rw [if_pos h0, if_pos h0]
      · rw [if_neg h0, if_neg h0]
        by_cases hover : i + data.getD i 0 ≥ data.length
        · rw [if_pos hover, if_pos hover]
        · rw [if_neg hover, if_neg hover, if_pos (by omega)]
          exact ih _ _ (by omega)
    · rw [if_neg hi, if_neg hi]

theorem parseDomainLoop_truncated (labels : List Bytes) (hpos : ∀ l ∈ labels, 1 ≤ l.length)
    (pre rest : Bytes) (L fuel : Nat) (domain : Bytes) (hL : rest.length < L)
    (hfuel : (pre ++ wireLabels labels ++ L :: rest).length ≤ fuel + pre.length) :
    parseDomainLoop (pre ++ wireLabels labels ++ L :: rest) fuel pre.length domain
      = domain ++ dottedLabels labels := by
  induction labels generalizing pre fuel domain with
  | nil =>
    cases fuel with
    | zero => simp at hfuel
    | succ f =>
      have hget : (pre ++ wireLabels [] ++ L :: rest).getD pre.length 0 = L := by
        rw [List.append_assoc]; exact getD_append_cons _ _ _ _
      have hlen : (pre ++ wireLabels [] ++ L :: rest).length = pre.length + (rest.length + 1) := by
        simp [wireLabels]
      rw [parseDomainLoop]
      simp only [hget, hlen]
      rw [if_pos (by omega), if_neg (by omega), if_pos (by omega)]
      simp [dottedLabels]
  | cons l ls ih =>
    cases fuel with
    | zero => simp at hfuel
    | succ f =>
      have hl : 1 ≤ l.length := hpos l (List.mem_cons_self _ _)
      have hls : ∀ x ∈ ls, 1 ≤ x.length := fun x hx => hpos x (List.mem_cons_of_mem _ hx)
      have hdata : pre ++ wireLabels (l :: ls) ++ L :: rest
          = (pre ++ l.length :: l) ++ wireLabels ls ++ L :: rest := by
        simp [wireLabels]
      have hi : pre.length + (l.length + 1) = (pre ++ l.length :: l).length := by simp
      have hget : (pre ++ wireLabels (l :: ls) ++ L :: rest).getD pre.length 0 = l.length := by
        rw [List.append_assoc]
        simp only [wireLabels, List.flatMap_cons, List.cons_append]
        exact getD_append_cons _ _ _ _
      have hseg : ((pre ++ wireLabels (l :: ls) ++ L :: rest).drop (pre.length + 1)).take l.length
          = l := by
        simp [wireLabels]
      have hlen : (pre ++ wireLabels (l :: ls) ++ L :: rest).length
          = pre.length + (l.length + 1) + (wireLabels ls).length + (rest.length + 1) := by
        simp [wireLabels]; omega
      rw [parseDomainLoop]
      simp only [hget, hseg]
      rw [if_pos (by omega), if_neg (by omega), if_neg (by omega)]
      rw [hdata, hi, ih hls]
      · simp [dottedLabels]
      · rw [← hdata, hlen]; simp; omega

theorem trimDot_dottedLabels (labels : List Bytes) :
    (if (dottedLabels labels).length > 0 ∧ (dottedLabels labels).getLast? = some dot then
        (dottedLabels labels).dropLast
      else dottedLabels labels) = joinDots labels := by
  cases labels with
  | nil => simp [dottedLabels, joinDots, List.intercalate]
  | cons l ls =>
    rw [dottedLabels_eq (l :: ls) (by simp)]
    simp

theorem parseDomain_truncated (labels : List Bytes) (hpos : ∀ l ∈ labels, 1 ≤ l.length)
    (h rest : Bytes) (L : Nat) (hh : h.length = 12) (hL : rest.length < L) :
    parseDomain (h ++ wireLabels labels ++ L :: rest) = joinDots labels := by
  unfold parseDomain
  have hloop := parseDomainLoop_truncated labels hpos h rest L
    (h ++ wireLabels labels ++ L :: rest).length [] hL (by omega)
  rw [hh] at hloop
  simp only [hloop, List.nil_append]
  exact trimDot_dottedLabels labels

/-- The reverse round trip holds for every name of one or more labels. -/
theorem encodeDomain_parseDomain_labels (labels : List Bytes) (h t : Bytes) (hne : labels ≠ [])
    (hvalid : ∀ l ∈ labels, 1 ≤ l.length ∧ l.length ≤ 63 ∧ dot ∉ l) (hh : h.length = 12) :
    encodeDomain (parseDomain (h ++ (wireLabels labels ++ [0]) ++ t)) = wireLabels labels ++ [0] := by
  have hp := parseDomain_wire labels hne (fun l hl => (hvalid l hl).1) h t hh
  have hdata : h ++ (wireLabels labels ++ [0]) ++ t = h ++ wireLabels labels ++ 0 :: t := by simp
  rw [hdata, hp]
  exact encodeDomain_joinDots labels hne (fun l hl => (hvalid l hl).2.2)
    (fun l hl => by have := (hvalid l hl).2.1; omega)

/-! ## Lemmas on request handling, zone loading and flags -/

theorem buildResponse_take (request domain answer : Bytes) (hlen : 12 ≤ request.length) :
    buildResponse request domain answer = buildResponse (request.take 12) domain answer := by
  obtain ⟨r0, r1, r2, r3, r4, r5, r6, r7, r8, r9, r10, r11, rest, rfl⟩ :=
    header_shape request hlen
  have htake : (r0 :: r1 :: r2 :: r3 :: r4 :: r5 :: r6 :: r7 :: r8 :: r9 :: r10 :: r11 :: rest).take 12
      = [r0, r1, r2, r3, r4, r5, r6, r7, r8, r9, r10, r11] := rfl
  rw [htake, buildResponse_layout, buildResponse_layout]

theorem loadDNSRecords_step (fields : Bytes → List Bytes) (trimSpace : Bytes → Bytes)
    (table : List DNSRecord) (line : Bytes) :
    (if List.isPrefixOf [59] line ∨ (trimSpace line).length = 0 then table
      else
        if (fields line).length < 4 then table
        else table ++ [{ Name := (fields line).getD 0 [], Typ := (fields line).getD 2 [],
                         Value := (fields line).getD 3 [] }])
      = table ++ (zoneRecordOfLine fields trimSpace line).toList := by
  have hprefix : (List.isPrefixOf [59] line = true) ↔ line.head? = some 59 := by
    cases line with
    | nil => simp [List.isPrefixOf]
    | cons c cs =>
      simp only [List.isPrefixOf, List.head?_cons, Option.some.injEq, Bool.and_true, beq_iff_eq]
      exact ⟨fun h => h.symm, fun h => h.symm⟩
  unfold zoneRecordOfLine
  by_cases h1 : line.head? = some 59
  · simp [h1, hprefix]
  · by_cases h2 : trimSpace line = []
    · simp [h2]
    · by_cases h3 : (fields line).length < 4
      · have h3n : ¬ 4 ≤ (fields line).length := by omega
        simp [h1, h2, h3, h3n, hprefix]
      · have h3p : 4 ≤ (fields line).length := by omega
        simp [h1, h2, h3, h3p, hprefix]

theorem packFlags_high : ∀ QR < 2, ∀ OpCode < 16, ∀ AA < 2, ∀ TC < 2, ∀ RD < 2,
    (shl16 QR 7 ||| shl16 OpCode 3 ||| shl16 AA 2 ||| shl16 TC 1 ||| RD) % 256
      = QR * 128 + OpCode * 8 + AA * 4 + TC * 2 + RD := by
  decide

theorem packFlags_low : ∀ RA < 2, ∀ Z < 8, ∀ ResponseCode < 16,
    (shl16 RA 7 ||| shl16 Z 4 ||| ResponseCode) % 256 = RA * 128 + Z * 16 + ResponseCode := by
  decide

theorem bigEndianUint16_pair (hi lo : Nat) (hhi : hi < 256) (hlo : lo < 256) :
    bigEndianUint16 [hi, lo] = hi * 256 + lo := by
  have hv : hi * 256 + lo < 65536 := by omega
  have hb : uint16Bytes (hi * 256 + lo) = [hi, lo] := by
    have h1 : ((hi * 256 + lo) >>> 8) % 256 = hi := by
      rw [Nat.shiftRight_eq_div_pow]
      omega
    have h2 : (hi * 256 + lo) % 256 = lo := by omega
    simp only [uint16Bytes, h1, h2]
  rw [← hb]
  exact bigEndianUint16_uint16Bytes _ hv

/-! ## Theorems -/

/-- C1 (code defect): on the table holding the single record
`a.com A 1.2.3.4`, a lookup of `b.com` returns `1.2.3.4`, whereas the
exact-match lookup of the specification returns the empty string. -/
theorem findLocalRecord_ignores_domain :
    findLocalRecord [⟨ascii "a.com", ascii "A", ascii "1.2.3.4"⟩] (ascii "b.com")
        = ascii "1.2.3.4"
      ∧ lookupExactSpec [⟨ascii "a.com", ascii "A", ascii "1.2.3.4"⟩] (ascii "b.com") = []
      ∧ findLocalRecord [⟨ascii "a.com", ascii "A", ascii "1.2.3.4"⟩] (ascii "b.com")
        ≠ lookupExactSpec [⟨ascii "a.com", ascii "A", ascii "1.2.3.4"⟩] (ascii "b.com") := by
  decide

/-- C2: label round trip. For every valid domain (one or more labels joined by
`'.'`, each label of 1 to 63 bytes none of which is `'.'`), every 12-byte
header `h` and every trailing byte sequence `t`, decoding
`h ++ encodeDomain D ++ t` gives back `D`. -/
theorem parseDomain_encodeDomain (labels : List Bytes) (h t : Bytes)
    (hne : labels ≠ [])
    (hvalid : ∀ l ∈ labels, 1 ≤ l.length ∧ l.length ≤ 63 ∧ dot ∉ l)
    (hh : h.length = 12) :
    parseDomain (h ++ encodeDomain (joinDots labels) ++ t) = joinDots labels := by
  rw [encodeDomain_joinDots labels hne (fun l hl => (hvalid l hl).2.2)
    (fun l hl => by have := (hvalid l hl).2.1; omega)]
  have := parseDomain_wire labels hne (fun l hl => (hvalid l hl).1) h t hh
  simpa using this

theorem parseDomain_encodeDomain_witness :
    parseDomain ([0xab, 0xcd, 1, 0, 0, 1, 0, 0, 0, 0, 0, 0]
        ++ encodeDomain (joinDots [ascii "example", ascii "com"]) ++ [0, 1, 0, 1])
      = joinDots [ascii "example", ascii "com"] :=
  parseDomain_encodeDomain [ascii "example", ascii "com"]
    [0xab, 0xcd, 1, 0, 0, 1, 0, 0, 0, 0, 0, 0] [0, 1, 0, 1] (by decide) (by decide) (by decide)

/-- C3: for every request of at least 12 bytes, `buildResponse` returns a
response of at least 12 bytes whose header equals the request header at every
byte outside the Flags field (bytes 2-3) and the AnswerCount field
(bytes 6-7); in particular the transaction ID (bytes 0-1) is the request's. -/
theorem buildResponse_header_frame (request domain answer : Bytes)
    (hlen : 12 ≤ request.length) :
    ∃ response, buildResponse request domain answer = some response
      ∧ 12 ≤ response.length
      ∧ (∀ i, i < 12 → i ≠ 2 → i ≠ 3 → i ≠ 6 → i ≠ 7 → response[i]? = request[i]?)
      ∧ slice response 0 2 = slice request 0 2 := by
  obtain ⟨r0, r1, r2, r3, r4, r5, r6, r7, r8, r9, r10, r11, rest, rfl⟩ :=
    header_shape request hlen
  refine ⟨_, buildResponse_layout _ _ _ _ _ _ _ _ _ _ _ _ _ _ _, ?_, ?_, ?_⟩
  · simp [uint16Bytes]
  · intro i hi h2 h3 h6 h7
    interval_cases i <;> simp_all [uint16Bytes]
  · simp [slice]

theorem buildResponse_header_frame_witness :
    ∃ response,
      buildResponse [0xab, 0xcd, 1, 0, 0, 1, 0, 0, 0, 0, 0, 0, 1, 97, 0, 0, 1, 0, 1]
          (ascii "a") (ascii "1.2.3.4") = some response
      ∧ 12 ≤ response.length
      ∧ (∀ i, i < 12 → i ≠ 2 → i ≠ 3 → i ≠ 6 → i ≠ 7 → response[i]?
          = [0xab, 0xcd, 1, 0, 0, 1, 0, 0, 0, 0, 0, 0, 1, 97, 0, 0, 1, 0, 1][i]?)
      ∧ slice response 0 2
          = slice [0xab, 0xcd, 1, 0, 0, 1, 0, 0, 0, 0, 0, 0, 1, 97, 0, 0, 1, 0, 1] 0 2 :=
  buildResponse_header_frame _ _ _ (by decide)

/-- C4 (code defect): for the type-A query for `a` answered with `1.2.3.4`,
the response holds exactly one answer record (name `a`, type/class, TTL,
RDLENGTH 4, RDATA 1 2 3 4) but its AnswerCount field reads 7, the length of
the string `1.2.3.4`, because the field is written from `len(answer)`. -/
theorem buildResponse_answerCount_is_answer_length :
    buildResponse [0xab, 0xcd, 1, 0, 0, 1, 0, 0, 0, 0, 0, 0, 1, 97, 0, 0, 1, 0, 1]
        (ascii "a") (ascii "1.2.3.4")
      = some ([0xab, 0xcd, 0x80, 0, 0, 1, 0, 7, 0, 0, 0, 0]
          ++ [1, 97, 0, 0, 1, 0, 1]
          ++ ([1, 97, 0, 0, 1, 0, 1] ++ [0, 0, 0, 0] ++ [0, 4] ++ [1, 2, 3, 4]))
      ∧ bigEndianUint16 (slice ([0xab, 0xcd, 0x80, 0, 0, 1, 0, 7, 0, 0, 0, 0]
          ++ [1, 97, 0, 0, 1, 0, 1]
          ++ ([1, 97, 0, 0, 1, 0, 1] ++ [0, 0, 0, 0] ++ [0, 4] ++ [1, 2, 3, 4])) 6 8) = 7
      ∧ (ascii "1.2.3.4").length = 7 := by
  decide

/-- C9: for every request of at least 12 bytes, whatever its own flag bytes,
bytes 2-3 of the response are `0x80 0x00`, that is QR = 1, OpCode = 0,
ResponseCode = 0 and AA, TC, RD, RA, Z all zero. -/
theorem buildResponse_flags (request domain answer : Bytes) (hlen : 12 ≤ request.length) :
    ∃ response, buildResponse request domain answer = some response
      ∧ slice response 2 4 = [0x80, 0x00]
      ∧ unpackFlags (slice response 2 4)
          = { QR := QRResponse, OpCode := OpCodeQuery, AA := 0, TC := 0, RD := 0, RA := 0,
              Z := 0, ResponseCode := ResponseNoError } := by
  obtain ⟨r0, r1, r2, r3, r4, r5, r6, r7, r8, r9, r10, r11, rest, rfl⟩ :=
    header_shape request hlen
  refine ⟨_, buildResponse_layout _ _ _ _ _ _ _ _ _ _ _ _ _ _ _, ?_⟩
  have hs : ∀ tl : Bytes, slice (r0 :: r1 :: 128 :: 0 :: tl) 2 4 = [128, 0] := fun _ => rfl
  simp only [List.cons_append, List.nil_append, List.append_assoc, hs]
  decide

theorem buildResponse_flags_witness :
    ∃ response,
      buildResponse [0xab, 0xcd, 0xff, 0xff, 0, 1, 0, 0, 0, 0, 0, 0, 1, 97, 0, 0, 1, 0, 1]
          (ascii "a") (ascii "1.2.3.4") = some response
      ∧ slice response 2 4 = [0x80, 0x00]
      ∧ unpackFlags (slice response 2 4)
          = { QR := QRResponse, OpCode := OpCodeQuery, AA := 0, TC := 0, RD := 0, RA := 0,
              Z := 0, ResponseCode := ResponseNoError } :=
  buildResponse_flags _ _ _ (by decide)

/-- C5: for all `a b c d` in 0..255, any request of at least 12 bytes and any
domain, the response built for the Value `a.b.c.d` ends with RDLENGTH `0x0004`
followed by the four RDATA octets `a b c d`, so that the RDATA, written back
in dotted decimal, is the stored Value. -/
theorem buildResponse_ipv4_rdata (a b c d : Nat) (request domain : Bytes)
    (ha : a < 256) (hb : b < 256) (hc : c < 256) (hd : d < 256)
    (hlen : 12 ≤ request.length) :
    ∃ response, buildResponse request domain (dottedQuad a b c d) = some response
      ∧ [0, 4, a, b, c, d] <:+ response
      ∧ response.drop (rdlengthOffset request domain) = [0, 4, a, b, c, d]
      ∧ joinDots ((response.drop (rdataOffset request domain)).map decimal)
          = dottedQuad a b c d := by
  obtain ⟨pre, hpre, hresp⟩ := buildResponse_tail request domain (dottedQuad a b c d) hlen
  rw [splitDots_dottedQuad a b c d ha hb hc hd, rdataOctets_dottedQuad a b c d ha hb hc hd]
    at hresp
  have hu : uint16Bytes ([decimal a, decimal b, decimal c, decimal d].length % 65536) = [0, 4] := by
    simp [uint16Bytes]
  rw [hu] at hresp
  have h1 : pre ++ [0, 0, 0, 0] ++ [0, 4] ++ [a, b, c, d]
      = (pre ++ [0, 0, 0, 0]) ++ [0, 4, a, b, c, d] := by simp
  have h2 : pre ++ [0, 0, 0, 0] ++ [0, 4] ++ [a, b, c, d]
      = (pre ++ [0, 0, 0, 0, 0, 4]) ++ [a, b, c, d] := by simp
  refine ⟨_, hresp, ?_, ?_, ?_⟩
  · rw [h1]
    exact List.suffix_append _ _
  · rw [h1]
    exact List.drop_left' (by simp [rdlengthOffset, hpre])
  · rw [h2, List.drop_left' (by simp [rdataOffset, rdlengthOffset, hpre])]
    rfl

theorem buildResponse_ipv4_rdata_witness :
    dottedQuad 192 168 1 1 = ascii "192.168.1.1" ∧
    ∃ response,
      buildResponse [0xab, 0xcd, 1, 0, 0, 1, 0, 0, 0, 0, 0, 0] (ascii "example.com")
          (dottedQuad 192 168 1 1) = some response
      ∧ [0, 4, 192, 168, 1, 1] <:+ response
      ∧ response.drop
          (rdlengthOffset [0xab, 0xcd, 1, 0, 0, 1, 0, 0, 0, 0, 0, 0] (ascii "example.com"))
          = [0, 4, 192, 168, 1, 1]
      ∧ joinDots ((response.drop
          (rdataOffset [0xab, 0xcd, 1, 0, 0, 1, 0, 0, 0, 0, 0, 0] (ascii "example.com"))).map
            decimal)
          = dottedQuad 192 168 1 1 :=
  ⟨by decide, buildResponse_ipv4_rdata 192 168 1 1 _ _ (by decide) (by decide) (by decide)
    (by decide) (by decide)⟩

/-- C6 (code defect): in the response to the type-A query for `a` answered
with `1.2.3.4`, the four TTL bytes, between the TYPE/CLASS bytes of the answer
record and RDLENGTH, are all zero: the TTL reads 0 and not 60, because the
slice returned by `AppendUint32(ttlBuf, 60)` is dropped. -/
theorem buildResponse_ttl_is_zero :
    (buildResponse [0xab, 0xcd, 1, 0, 0, 1, 0, 0, 0, 0, 0, 0, 1, 97, 0, 0, 1, 0, 1]
        (ascii "a") (ascii "1.2.3.4")).map
        (fun r => slice r
          (ttlOffset [0xab, 0xcd, 1, 0, 0, 1, 0, 0, 0, 0, 0, 0, 1, 97, 0, 0, 1, 0, 1] (ascii "a"))
          (rdlengthOffset [0xab, 0xcd, 1, 0, 0, 1, 0, 0, 0, 0, 0, 0, 1, 97, 0, 0, 1, 0, 1]
            (ascii "a")))
      = some [0, 0, 0, 0]
    ∧ bigEndianUint32 [0, 0, 0, 0] = 0
    ∧ bigEndianUint32 [0, 0, 0, 60] = 60 := by
  decide

/-- C7 (code defect): for the well-formed single-question CNAME query for `a`
(QTYPE/QCLASS bytes `00 05 00 01`), the answer record carries the TYPE/CLASS
bytes `00 01 00 01` of type A: `parseTypeAndClass` is given bytes 4-5 of the
request, the QuestionCount field, which is 1. -/
theorem buildResponse_answer_type_from_question_count :
    parseDomain [0xab, 0xcd, 1, 0, 0, 1, 0, 0, 0, 0, 0, 0, 1, 97, 0, 0, 5, 0, 1] = ascii "a"
    ∧ [0xab, 0xcd, 1, 0, 0, 1, 0, 0, 0, 0, 0, 0, 1, 97, 0, 0, 5, 0, 1]
        = [0xab, 0xcd, 1, 0, 0, 1, 0, 0, 0, 0, 0, 0] ++ encodeDomain (ascii "a") ++ [0, 5, 0, 1]
    ∧ (buildResponse [0xab, 0xcd, 1, 0, 0, 1, 0, 0, 0, 0, 0, 0, 1, 97, 0, 0, 5, 0, 1]
        (ascii "a") (ascii "1.2.3.4")).map
        (fun r => slice r
          (answerTypeOffset [0xab, 0xcd, 1, 0, 0, 1, 0, 0, 0, 0, 0, 0, 1, 97, 0, 0, 5, 0, 1]
            (ascii "a"))
          (ttlOffset [0xab, 0xcd, 1, 0, 0, 1, 0, 0, 0, 0, 0, 0, 1, 97, 0, 0, 5, 0, 1]
            (ascii "a")))
      = some [0, 1, 0, 1] := by
  decide

/-- C8 (code defect): for the well-formed single-question AAAA query for
`example.com`, the question section of the response ends in `00 01 00 01`
where the request's ends in `00 1c 00 01`, so the two question sections
differ. Same cause as for C7. -/
theorem buildResponse_question_differs :
    (buildResponse
        ([0xab, 0xcd, 1, 0, 0, 1, 0, 0, 0, 0, 0, 0] ++ encodeDomain (ascii "example.com")
          ++ [0, 0x1c, 0, 1])
        (parseDomain ([0xab, 0xcd, 1, 0, 0, 1, 0, 0, 0, 0, 0, 0]
          ++ encodeDomain (ascii "example.com") ++ [0, 0x1c, 0, 1]))
        (ascii "1.2.3.4")).map
        (fun r => slice r 12
          (answerOffset ([0xab, 0xcd, 1, 0, 0, 1, 0, 0, 0, 0, 0, 0]
            ++ encodeDomain (ascii "example.com") ++ [0, 0x1c, 0, 1]) (ascii "example.com")))
      = some (encodeDomain (ascii "example.com") ++ [0, 1, 0, 1])
    ∧ List.drop 12 ([0xab, 0xcd, 1, 0, 0, 1, 0, 0, 0, 0, 0, 0]
          ++ encodeDomain (ascii "example.com") ++ [0, 0x1c, 0, 1])
      = encodeDomain (ascii "example.com") ++ [0, 0x1c, 0, 1]
    ∧ encodeDomain (ascii "example.com") ++ [0, 1, 0, 1]
      ≠ encodeDomain (ascii "example.com") ++ [0, 0x1c, 0, 1] := by
  decide

/-- C10, as stated, fails: for the Value `1..2`, which has three dot-separated
components, the RDLENGTH field is 3 but only the two octets `1 2` follow it,
the empty component being skipped by the guard `len(part) > 0`. -/
theorem buildResponse_rdlength_counts_empty_parts :
    (splitDots (ascii "1..2")).length = 3
    ∧ (buildResponse [0xab, 0xcd, 1, 0, 0, 1, 0, 0, 0, 0, 0, 0, 1, 97, 0, 0, 1, 0, 1]
        (ascii "a") (ascii "1..2")).map
        (fun r => bigEndianUint16 (slice r
          (rdlengthOffset [0xab, 0xcd, 1, 0, 0, 1, 0, 0, 0, 0, 0, 0, 1, 97, 0, 0, 1, 0, 1]
            (ascii "a"))
          (rdataOffset [0xab, 0xcd, 1, 0, 0, 1, 0, 0, 0, 0, 0, 0, 1, 97, 0, 0, 1, 0, 1]
            (ascii "a"))))
      = some 3
    ∧ (buildResponse [0xab, 0xcd, 1, 0, 0, 1, 0, 0, 0, 0, 0, 0, 1, 97, 0, 0, 1, 0, 1]
        (ascii "a") (ascii "1..2")).map
        (fun r => r.drop
          (rdataOffset [0xab, 0xcd, 1, 0, 0, 1, 0, 0, 0, 0, 0, 0, 1, 97, 0, 0, 1, 0, 1]
            (ascii "a")))
      = some [1, 2] := by
  decide

/-- C10, amended: for every request of at least 12 bytes, every domain and
every Value none of whose dot-separated components is empty and which has
fewer than 65536 of them, the RDLENGTH field equals the number of components
of Value, the RDATA after it is one octet per component, in order, and the
response ends exactly RDLENGTH octets after the RDLENGTH field. -/
theorem buildResponse_rdlength_rdata (request domain answer : Bytes)
    (hlen : 12 ≤ request.length)
    (hparts : ∀ part ∈ splitDots answer, part.length > 0)
    (hcount : (splitDots answer).length < 65536) :
    ∃ response, buildResponse request domain answer = some response
      ∧ bigEndianUint16
          (slice response (rdlengthOffset request domain) (rdataOffset request domain))
          = (splitDots answer).length
      ∧ response.drop (rdataOffset request domain)
          = (splitDots answer).map (fun part => intToByte (atoi part))
      ∧ response.length = rdataOffset request domain + (splitDots answer).length := by
  obtain ⟨response, hresp, hfield, hdata, hend⟩ :=
    buildResponse_rdlength_general request domain answer hlen
  have hall : (splitDots answer).filter (fun part => decide (part.length > 0))
      = splitDots answer :=
    List.filter_eq_self.mpr (fun part hp => by simpa using hparts part hp)
  rw [Nat.mod_eq_of_lt hcount] at hfield
  rw [hall] at hdata hend
  exact ⟨response, hresp, hfield, hdata, hend⟩

theorem buildResponse_rdlength_rdata_witness :
    ∃ response,
      buildResponse [0xab, 0xcd, 1, 0, 0, 1, 0, 0, 0, 0, 0, 0, 1, 97, 0, 0, 1, 0, 1]
          (ascii "a") (ascii "10.0.0.7") = some response
      ∧ bigEndianUint16
          (slice response
            (rdlengthOffset [0xab, 0xcd, 1, 0, 0, 1, 0, 0, 0, 0, 0, 0, 1, 97, 0, 0, 1, 0, 1]
              (ascii "a"))
            (rdataOffset [0xab, 0xcd, 1, 0, 0, 1, 0, 0, 0, 0, 0, 0, 1, 97, 0, 0, 1, 0, 1]
              (ascii "a")))
          = (splitDots (ascii "10.0.0.7")).length
      ∧ response.drop
          (rdataOffset [0xab, 0xcd, 1, 0, 0, 1, 0, 0, 0, 0, 0, 0, 1, 97, 0, 0, 1, 0, 1]
            (ascii "a"))
          = (splitDots (ascii "10.0.0.7")).map (fun part => intToByte (atoi part))
      ∧ response.length
          = rdataOffset [0xab, 0xcd, 1, 0, 0, 1, 0, 0, 0, 0, 0, 0, 1, 97, 0, 0, 1, 0, 1]
              (ascii "a")
            + (splitDots (ascii "10.0.0.7")).length :=
  buildResponse_rdlength_rdata _ _ _ (by decide) (by decide) (by decide)

/-- C13: for every buffer, of any length, the decoding loop of `parseDomain`
run with the bounds checks of Go and fuel `len(data)` ends with a value, never
with an index out of range and never out of fuel, and that value is what
`parseDomain` trims; and on a 12-byte header followed by `k` complete labels
and a length octet `L` with fewer than `L` bytes after it (so `L > 0`),
`parseDomain` returns exactly the `k` labels joined by `'.'`. -/
theorem parseDomain_total_and_truncated (data : Bytes) (labels : List Bytes) (h rest : Bytes)
    (L : Nat) (hpos : ∀ l ∈ labels, 1 ≤ l.length) (hh : h.length = 12)
    (hL : rest.length < L) :
    parseDomainChecked data data.length 12 []
        = LoopResult.value (parseDomainLoop data data.length 12 [])
      ∧ (∀ fuel, data.length ≤ fuel →
          parseDomainChecked data fuel 12 []
            = LoopResult.value (parseDomainLoop data data.length 12 []))
      ∧ parseDomain (h ++ wireLabels labels ++ L :: rest) = joinDots labels := by
  refine ⟨parseDomainChecked_eq data _ _ _ (by omega), ?_, ?_⟩
  · intro fuel hfuel
    rw [parseDomainChecked_eq data _ _ _ (by omega)]
    exact congrArg LoopResult.value (parseDomainLoop_fuel data _ _ _ _ (by omega) (by omega))
  · exact parseDomain_truncated labels hpos h rest L hh hL

theorem parseDomain_total_and_truncated_witness :
    parseDomainChecked [1, 2, 3] 3 12 [] = LoopResult.value (parseDomainLoop [1, 2, 3] 3 12 [])
      ∧ (∀ fuel, [1, 2, 3].length ≤ fuel →
          parseDomainChecked [1, 2, 3] fuel 12 []
            = LoopResult.value (parseDomainLoop [1, 2, 3] [1, 2, 3].length 12 []))
      ∧ parseDomain ([0xab, 0xcd, 1, 0, 0, 1, 0, 0, 0, 0, 0, 0]
          ++ wireLabels [ascii "www", ascii "example"] ++ 3 :: [99, 111])
        = joinDots [ascii "www", ascii "example"] :=
  parseDomain_total_and_truncated [1, 2, 3] [ascii "www", ascii "example"]
    [0xab, 0xcd, 1, 0, 0, 1, 0, 0, 0, 0, 0, 0] [99, 111] 3 (by decide) (by decide) (by decide)

set_option maxRecDepth 100000 in
/-- C11 (code defect): with an empty zone table and the single forwarder
`8.8.8.8:53` answering a query for `unknown.test` with a 30-byte reply, the
datagram written back to the client is the whole 1024-byte `responseBuffer`,
the reply followed by 994 zero bytes, not the 30 bytes read: the count
returned by `forwarderConn.Read` is discarded. -/
theorem handleRequest_forward_writes_whole_buffer :
    handleRequest []
        [{ address := ascii "8.8.8.8:53", dialOk := true, writeOk := true,
           reply := some ([0xab, 0xcd, 0x81, 0x83, 0, 1, 0, 0, 0, 0, 0, 0]
             ++ encodeDomain (ascii "unknown.test") ++ [0, 1, 0, 1]),
           clientWriteOk := true }]
        (some ([0xab, 0xcd, 1, 0, 0, 1, 0, 0, 0, 0, 0, 0]
          ++ encodeDomain (ascii "unknown.test") ++ [0, 1, 0, 1]))
        true
      = some
        [Event.dial (ascii "8.8.8.8:53"),
         Event.writeToForwarder (ascii "8.8.8.8:53")
           ([0xab, 0xcd, 1, 0, 0, 1, 0, 0, 0, 0, 0, 0]
             ++ encodeDomain (ascii "unknown.test") ++ [0, 1, 0, 1]),
         Event.readFromForwarder (ascii "8.8.8.8:53"),
         Event.writeToClient
           (([0xab, 0xcd, 0x81, 0x83, 0, 1, 0, 0, 0, 0, 0, 0]
             ++ encodeDomain (ascii "unknown.test") ++ [0, 1, 0, 1])
             ++ List.replicate 994 0)]
    ∧ ([0xab, 0xcd, 0x81, 0x83, 0, 1, 0, 0, 0, 0, 0, 0]
        ++ encodeDomain (ascii "unknown.test") ++ [0, 1, 0, 1]).length = 30
    ∧ (([0xab, 0xcd, 0x81, 0x83, 0, 1, 0, 0, 0, 0, 0, 0]
        ++ encodeDomain (ascii "unknown.test") ++ [0, 1, 0, 1])
        ++ List.replicate 994 0).length = 1024 := by
  decide

/-- C12: for every received datagram shorter than 12 bytes, every zone table,
every forwarder list and whatever the network would do, `handleRequest`
returns normally having only printed a diagnostic: it writes nothing to the
client and dials no forwarder. -/
theorem handleRequest_short_datagram (localDNSRecords : List DNSRecord)
    (DNSForwarder : List Forwarder) (datagram : Bytes) (clientWriteOk : Bool)
    (hshort : datagram.length < 12) :
    handleRequest localDNSRecords DNSForwarder (some datagram) clientWriteOk
      = some [Event.print] := by
  have hn : min datagram.length 1024 < 12 := by omega
  simp only [handleRequest, hn, if_true]

theorem handleRequest_short_datagram_witness :
    handleRequest [⟨ascii "example.com", ascii "A", ascii "192.168.1.1"⟩]
        [{ address := ascii "8.8.8.8:53", dialOk := true, writeOk := true,
           reply := some [1, 2, 3], clientWriteOk := true }]
        (some [0xab, 0xcd, 1, 0, 0, 1, 0, 0, 0, 0, 0]) true
      = some [Event.print] :=
  handleRequest_short_datagram _ _ _ _ (by decide)

/-- C14: on a non-empty table `findLocalRecord` returns the Value of the first
record whatever the queried domain, and on any table it returns the empty
string exactly when the table is empty or the Value of its first record is
empty. -/
theorem findLocalRecord_first_value (record : DNSRecord) (rest table : List DNSRecord)
    (domain : Bytes) :
    findLocalRecord (record :: rest) domain = record.Value
      ∧ (findLocalRecord table domain = []
          ↔ table = [] ∨ table.head?.map DNSRecord.Value = some []) := by
  refine ⟨rfl, ?_⟩
  cases table with
  | nil => simp [findLocalRecord]
  | cons r rs => simp [findLocalRecord]

/-- C15: for every request of at least 12 bytes, every domain and every answer
string, `buildResponse` does not panic and returns at least 12 bytes. -/
theorem buildResponse_total (request domain answer : Bytes) (hlen : 12 ≤ request.length) :
    ∃ response, buildResponse request domain answer = some response
      ∧ 12 ≤ response.length := by
  obtain ⟨header, hh, hresp⟩ := buildResponse_sections request domain answer hlen
  refine ⟨_, hresp, ?_⟩
  simp only [List.length_append, hh]
  omega

theorem buildResponse_total_witness :
    ∃ response,
      buildResponse [0xab, 0xcd, 1, 0, 0, 7, 0, 0, 0, 0, 0, 0] [] (ascii "x.999..-") = some response
      ∧ 12 ≤ response.length :=
  buildResponse_total _ _ _ (by decide)

/-- C16: for every list of lines and every table, `loadDNSRecords` returns the
table followed, in file order, by one record (fields 0, 2 and 3) for each line
that does not begin with `';'`, is not blank and has at least four fields, and
by nothing for any other line; this for any `strings.Fields` and
`strings.TrimSpace`. -/
theorem loadDNSRecords_spec (fields : Bytes → List Bytes) (trimSpace : Bytes → Bytes)
    (localDNSRecords : List DNSRecord) (lines : List Bytes) :
    loadDNSRecords fields trimSpace localDNSRecords lines
      = localDNSRecords ++ lines.filterMap (zoneRecordOfLine fields trimSpace) := by
  induction lines generalizing localDNSRecords with
  | nil => simp [loadDNSRecords]
  | cons line rest ih =>
    have hrest := ih (localDNSRecords ++ (zoneRecordOfLine fields trimSpace line).toList)
    have hstep := loadDNSRecords_step fields trimSpace localDNSRecords line
    unfold loadDNSRecords at hrest ⊢
    rw [List.foldl_cons]
    simp only [hstep, hrest, List.append_assoc]
    cases hz : zoneRecordOfLine fields trimSpace line with
    | none => simp [List.filterMap_cons, hz]
    | some record => simp [List.filterMap_cons, hz]

theorem loadDNSRecords_spec_witness :
    loadDNSRecords asciiFields asciiTrimSpace []
        [ascii "; comment", ascii "", ascii "example.com IN A 192.168.1.1"]
      = [{ Name := ascii "example.com", Typ := ascii "A", Value := ascii "192.168.1.1" }] :=
  (loadDNSRecords_spec asciiFields asciiTrimSpace []
    [ascii "; comment", ascii "", ascii "example.com IN A 192.168.1.1"]).trans (by decide)

/-- C17: for flags whose fields fit their declared widths, the two bytes of
`packFlags` read as a big-endian 16-bit number are
`QR*2^15 + OpCode*2^11 + AA*2^10 + TC*2^9 + RD*2^8 + RA*2^7 + Z*2^4 + ResponseCode`,
and two in-range flags packed to the same bytes are equal. -/
theorem packFlags_word (f g : DNSFlag) (hf : flagsInRange f) (hg : flagsInRange g) :
    bigEndianUint16 (packFlags f) = flagsWord f ∧ (packFlags f = packFlags g → f = g) := by
  obtain ⟨f1, f2, f3, f4, f5, f6, f7, f8⟩ := hf
  obtain ⟨g1, g2, g3, g4, g5, g6, g7, g8⟩ := hg
  have hpf : packFlags f
      = [f.QR * 128 + f.OpCode * 8 + f.AA * 4 + f.TC * 2 + f.RD,
         f.RA * 128 + f.Z * 16 + f.ResponseCode] := by
    simp only [packFlags, packFlags_high f.QR f1 f.OpCode f2 f.AA f3 f.TC f4 f.RD f5,
      packFlags_low f.RA f6 f.Z f7 f.ResponseCode f8]
  have hpg : packFlags g
      = [g.QR * 128 + g.OpCode * 8 + g.AA * 4 + g.TC * 2 + g.RD,
         g.RA * 128 + g.Z * 16 + g.ResponseCode] := by
    simp only [packFlags, packFlags_high g.QR g1 g.OpCode g2 g.AA g3 g.TC g4 g.RD g5,
      packFlags_low g.RA g6 g.Z g7 g.ResponseCode g8]
  constructor
  · rw [hpf, bigEndianUint16_pair _ _ (by omega) (by omega)]
    simp only [flagsWord]
    omega
  · intro heq
    rw [hpf, hpg] at heq
    simp only [List.cons.injEq, and_true] at heq
    obtain ⟨e1, e2⟩ := heq
    cases f
    cases g
    simp only [DNSFlag.mk.injEq] at *
    omega

theorem packFlags_word_witness :
    bigEndianUint16 (packFlags (DNSFlag.mk 1 2 1 0 1 1 5 3)) = flagsWord (DNSFlag.mk 1 2 1 0 1 1 5 3)
    ∧ (packFlags (DNSFlag.mk 1 2 1 0 1 1 5 3) = packFlags (DNSFlag.mk 0 0 0 0 1 0 0 0)
        → DNSFlag.mk 1 2 1 0 1 1 5 3 = DNSFlag.mk 0 0 0 0 1 0 0 0) :=
  packFlags_word _ _ (by decide) (by decide)

set_option maxRecDepth 100000 in
/-- C18 (code defect): for the 15-byte datagram made of a header and the
truncated label `03 77 77`, `parseDomain` on the 15 received bytes returns the
empty string, but the dispatcher, which passes the whole 1024-byte buffer,
decodes the three bytes `77 77 00`, taking a zero byte of the padding into the
label. -/
theorem parseDomain_buffer_reads_padding :
    parseDomain [0xab, 0xcd, 1, 0, 0, 1, 0, 0, 0, 0, 0, 0, 3, 0x77, 0x77] = []
    ∧ parseDomain (readInto 1024 [0xab, 0xcd, 1, 0, 0, 1, 0, 0, 0, 0, 0, 0, 3, 0x77, 0x77])
        = [0x77, 0x77, 0]
    ∧ readInto 1024 [0xab, 0xcd, 1, 0, 0, 1, 0, 0, 0, 0, 0, 0, 3, 0x77, 0x77]
        = [0xab, 0xcd, 1, 0, 0, 1, 0, 0, 0, 0, 0, 0, 3, 0x77, 0x77] ++ List.replicate 1009 0 := by
  decide

/-- C19 (code defect): for the root name, whose wire form is the single octet
`00`, decoding gives the empty string and encoding the empty string gives the
two octets `00 00`, not `00`: `strings.Split` of the empty string is one empty
segment, written as a zero length octet before the terminating zero. -/
theorem encodeDomain_parseDomain_root :
    parseDomain ([0xab, 0xcd, 1, 0, 0, 1, 0, 0, 0, 0, 0, 0] ++ [0] ++ [0, 1, 0, 1]) = []
    ∧ encodeDomain (parseDomain
        ([0xab, 0xcd, 1, 0, 0, 1, 0, 0, 0, 0, 0, 0] ++ [0] ++ [0, 1, 0, 1])) = [0, 0]
    ∧ wireLabels [] ++ [0] = [0] := by
  decide

/-- C20: two requests of at least 12 bytes with the same first 12 bytes give
the same response, for every domain and answer: `buildResponse` reads nothing
of the request past its header. -/
theorem buildResponse_header_only (r1 r2 domain answer : Bytes) (h1 : 12 ≤ r1.length)
    (h2 : 12 ≤ r2.length) (heq : r1.take 12 = r2.take 12) :
    buildResponse r1 domain answer = buildResponse r2 domain answer := by
  rw [buildResponse_take r1 domain answer h1, buildResponse_take r2 domain answer h2, heq]

theorem buildResponse_header_only_witness :
    buildResponse ([0xab, 0xcd, 1, 0, 0, 1, 0, 0, 0, 0, 0, 0] ++ encodeDomain (ascii "a")
        ++ [0, 1, 0, 1]) (ascii "a") (ascii "1.2.3.4")
      = buildResponse ([0xab, 0xcd, 1, 0, 0, 1, 0, 0, 0, 0, 0, 0]
        ++ encodeDomain (ascii "example.com") ++ [0, 0x1c, 0, 1]) (ascii "a") (ascii "1.2.3.4") :=
  buildResponse_header_only _ _ _ _ (by decide) (by decide) (by decide)

end DNSServer
